import Mathlib

/-!
Verification of the Redfish URI Validator core (redfish-uri-validator.py).

The embedding models the validation engine of the tool:
  * the path matcher built at line 98 of the source, which turns an OpenAPI
    path template into an anchored regular expression where every
    placeholder of the form open-brace, alphanumerics, close-brace becomes
    a wildcard matching one or more non-separator characters, while the
    remaining template characters are left unescaped and keep their
    regular-expression meaning: the embedding models ordinary characters,
    the any-character dot, and the trailing-newline tolerance of the final
    dollar, and marks templates containing other metacharacters as outside
    the modelled alphabet;
  * scan_object (lines 176-220), the nested depth-first search over a
    resource tree that records the chain of property names leading to an
    embedded reference;
  * build_reference_path (lines 142-174), the reachability resolver; its
    Python original recurses without a cycle guard, so it is embedded with
    an explicit fuel parameter, the out-of-fuel answer being none;
  * the classification loop of run_test (lines 81-135), which produces the
    per-identifier verdict map, the orphan list and the three counters.

Resource payloads are parsed JSON-like trees: mappings from property names
to values, where a value is a string, another mapping, an array, or some
other scalar (number, boolean, null - abstracted as a tagged scalar).
Python dictionaries iterate in insertion order, so a mapping is embedded as
an ordered list of name/value pairs.  A non-string value stored under the
identifier key makes the Python code raise a TypeError inside re.match, so
run_test is a fallible function returning Option.
-/

mutual

inductive Value where
  | vStr (s : String) : Value
  | vOther (tag : Nat) : Value
  | vObj (fields : Fields) : Value
  | vArr (elems : Elems) : Value

inductive Fields where
  | nil : Fields
  | cons (name : String) (v : Value) (rest : Fields) : Fields

inductive Elems where
  | nil : Elems
  | cons (v : Value) (rest : Elems) : Elems

end

mutual

def valueEq : Value → Value → Bool
  | .vStr a, .vStr b => a == b
  | .vOther a, .vOther b => a == b
  | .vObj a, .vObj b => fieldsEq a b
  | .vArr a, .vArr b => elemsEq a b
  | _, _ => false

def fieldsEq : Fields → Fields → Bool
  | .nil, .nil => true
  | .cons n v r, .cons n2 v2 r2 => n == n2 && valueEq v v2 && fieldsEq r r2
  | _, _ => false

def elemsEq : Elems → Elems → Bool
  | .nil, .nil => true
  | .cons v r, .cons v2 r2 => valueEq v v2 && elemsEq r r2
  | _, _ => false

end

/-- Embedding of Python dict.get with default None: first binding wins
(Python dictionaries have unique keys). -/
def Fields.get : Fields → String → Option Value
  | .nil, _ => none
  | .cons n v rest, key => if n = key then some v else Fields.get rest key

/-- One token of the pattern built at line 98 of the source.  The template
characters are never escaped before being handed to re.match at line 100,
so they keep their regular-expression meaning: an ordinary character
matches itself, an unescaped dot matches any single character other than a
newline, and the wildcard standing for a replaced placeholder matches one
or more characters other than the path separator.  Templates containing
other unescaped metacharacters (dollar, star, plus, question mark,
parentheses, brackets, bar, backslash, caret, leftover braces) are outside
the modelled pattern alphabet; the predicate modelledTemplate below marks
the templates the embedding covers faithfully. -/
inductive Tok where
  | lit (c : Char) : Tok
  | dot : Tok
  | wild : Tok
deriving DecidableEq

/-- Token for a single non-placeholder template character: an unescaped dot
is the any-character metacharacter, everything else is an ordinary
character of the pattern. -/
def tokOfChar (c : Char) : Tok :=
  if c = '.' then Tok.dot else Tok.lit c

mutual

/-- Tokenisation of a path template, mirroring the substitution performed at
line 98 of the source: each leftmost occurrence of an opening brace, one or
more alphanumerics and a closing brace is replaced by the wildcard; every
other character stands for itself.  When an opening brace does not begin a
well-formed placeholder, the characters examined cannot begin one either
(they are alphanumerics), so they are emitted as literals directly and the
scan resumes at the offending character - the same result the regular
expression substitution produces, with no backtracking. -/
def tokenizeTemplate : List Char → List Tok
  | [] => []
  | c :: rest =>
    if c = '{' then scanPlaceholder rest []
    else tokOfChar c :: tokenizeTemplate rest

/-- State after an opening brace: seen holds the alphanumerics consumed so
far; a closing brace after at least one of them completes the wildcard;
anything else turns the brace and the alphanumerics into literals. -/
def scanPlaceholder : List Char → List Char → List Tok
  | [], seen => Tok.lit '{' :: seen.map Tok.lit
  | c :: rest, seen =>
    if c.isAlphanum then scanPlaceholder rest (seen ++ [c])
    else if c = '}' ∧ seen ≠ [] then Tok.wild :: tokenizeTemplate rest
    else if c = '{' then Tok.lit '{' :: (seen.map Tok.lit ++ scanPlaceholder rest [])
    else Tok.lit '{' :: (seen.map Tok.lit ++ (tokOfChar c :: tokenizeTemplate rest))

end

/-- Matching of a token sequence against a whole character sequence, with
regular-expression semantics for the tokens: an ordinary character matches
itself, the dot matches any single character other than a newline, the
wildcard consumes one or more characters other than the separator, with
full backtracking, which for a boolean result is the semantics of the
pattern produced at line 98. -/
def toksMatch : List Tok → List Char → Bool
  | [], [] => true
  | [], _ :: _ => false
  | _ :: _, [] => false
  | Tok.lit c :: ts, x :: xs => (c == x) && toksMatch ts xs
  | Tok.dot :: ts, x :: xs => (x != Char.ofNat 10) && toksMatch ts xs
  | Tok.wild :: ts, x :: xs =>
      (x != '/') && (toksMatch ts xs || toksMatch (Tok.wild :: ts) xs)

/-- Embedding of the per-template test of lines 98-101.  re.match anchors
the pattern at the start of the identifier; the dollar appended at line 98
matches at the very end of the identifier or just before a newline that is
its last character, which is the trailing-newline tolerance of the
unescaped dollar metacharacter. -/
def matchesTemplate (servUri templ : String) : Bool :=
  toksMatch (tokenizeTemplate templ.data) servUri.data ||
  ((servUri.data.getLast? == some (Char.ofNat 10)) &&
    toksMatch (tokenizeTemplate templ.data) servUri.data.dropLast)

/-- Literal reading of the matching contract asserted by the claim: the
character sequence is the template with every placeholder replaced by some
non-empty run of non-separator characters, every other template character -
the dot included - standing for itself, and nothing left over at either
end. -/
inductive ConformsTo : List Tok → List Char → Prop where
  | nil : ConformsTo [] []
  | lit (c : Char) {ts : List Tok} {s : List Char} :
      ConformsTo ts s → ConformsTo (Tok.lit c :: ts) (c :: s)
  | dot {ts : List Tok} {s : List Char} :
      ConformsTo ts s → ConformsTo (Tok.dot :: ts) ('.' :: s)
  | wild (seg : List Char) {ts : List Tok} {s : List Char} :
      seg ≠ [] → (∀ c ∈ seg, c ≠ '/') →
      ConformsTo ts s → ConformsTo (Tok.wild :: ts) (seg ++ s)

/-- Literal matching relation between an identifier and a template, with
the placeholder structure of the template read off by the same tokenisation
the code performs: this is the relation the claim asserts the matcher
decides. -/
def TemplateConforms (servUri templ : String) : Prop :=
  ConformsTo (tokenizeTemplate templ.data) servUri.data

/-- Decidable companion of ConformsTo: exact-character matching for
ordinary characters and the dot, one-or-more non-separator characters for
a placeholder, the whole sequence consumed. -/
def litMatch : List Tok → List Char → Bool
  | [], [] => true
  | [], _ :: _ => false
  | _ :: _, [] => false
  | Tok.lit c :: ts, x :: xs => (c == x) && litMatch ts xs
  | Tok.dot :: ts, x :: xs => (x == '.') && litMatch ts xs
  | Tok.wild :: ts, x :: xs =>
      (x != '/') && (litMatch ts xs || litMatch (Tok.wild :: ts) xs)

/-- Declarative reading of the pattern the code actually runs: like
ConformsTo, except that a dot in the template stands for any single
character other than a newline, as the unescaped regular-expression dot
does. -/
inductive PyConformsTo : List Tok → List Char → Prop where
  | nil : PyConformsTo [] []
  | lit (c : Char) {ts : List Tok} {s : List Char} :
      PyConformsTo ts s → PyConformsTo (Tok.lit c :: ts) (c :: s)
  | dot (c : Char) {ts : List Tok} {s : List Char} :
      c ≠ Char.ofNat 10 → PyConformsTo ts s → PyConformsTo (Tok.dot :: ts) (c :: s)
  | wild (seg : List Char) {ts : List Tok} {s : List Char} :
      seg ≠ [] → (∀ c ∈ seg, c ≠ '/') →
      PyConformsTo ts s → PyConformsTo (Tok.wild :: ts) (seg ++ s)

/-- Matching relation the code decides: the identifier itself conforms to
the pattern, or the identifier ends in a newline and everything before that
newline conforms - the reach of the dollar appended at line 98. -/
def PyTemplateConforms (servUri templ : String) : Prop :=
  PyConformsTo (tokenizeTemplate templ.data) servUri.data ∨
  (servUri.data.getLast? = some (Char.ofNat 10) ∧
   PyConformsTo (tokenizeTemplate templ.data) servUri.data.dropLast)

/-- Characters to which the regular-expression engine gives a special
meaning: the pattern of line 98 leaves them unescaped, and of them only the
dot (and the braces of a well-formed placeholder) is part of the modelled
pattern alphabet. -/
def regexSpecialChars : List Char :=
  [ '.', '$', '*', '+', '?', '(', ')', '[', ']', '|',
    Char.ofNat 92, Char.ofNat 94, '{', '}' ]

/-- An ordinary pattern character: one the engine matches literally. -/
def regexOrdinary (c : Char) : Bool := !(regexSpecialChars.contains c)

/-- A token the embedding models faithfully: the dot and the wildcard, and
any literal that is an ordinary character. -/
def modelledTok : Tok → Bool
  | .lit c => regexOrdinary c
  | _ => true

/-- Templates the embedding covers faithfully: after tokenisation every
literal is an ordinary character - so the template consists of ordinary
characters, dots and well-formed placeholders only. -/
def modelledTemplate (templ : String) : Bool :=
  (tokenizeTemplate templ.data).all modelledTok

/-- Fixed list of properties scan_object never traverses into
(lines 196-199 of the source). -/
def skipped_properties : List String :=
  [ "Links", "PoweredBy", "CooledBy", "RelatedItem", "OriginOfCondition",
    "MaintenanceWindowResource", "RedundancySet", "OriginResources" ]

mutual

/-- Embedding of scan_object (lines 176-220).  The Python function mutates
its partial_path list and returns a boolean; here the final state of the
path accumulator is returned alongside the boolean.  Appending a property
name models partial_path.append, dropping the last element models
del partial_path[-1]. -/
def scan_object (uri : Value) : Fields → List String → Bool × List String
  | .nil, pp => (false, pp)
  | .cons prop v rest, pp =>
    if prop = "@odata.id" ∧ valueEq v uri then (true, pp)
    else if prop ∈ skipped_properties then scan_object uri rest pp
    else
      match v with
      | Value.vObj fields =>
        match scan_object uri fields (pp ++ [prop]) with
        | (true, pp2) => (true, pp2)
        | (false, pp2) => scan_object uri rest pp2.dropLast
      | Value.vArr elems =>
        match scan_array uri elems (pp ++ [prop]) with
        | (true, pp2) => (true, pp2)
        | (false, pp2) => scan_object uri rest pp2.dropLast
      | _ => scan_object uri rest pp

/-- Embedding of the array loop inside scan_object (lines 211-218): only
elements that are mappings are scanned; other elements, including nested
arrays, are passed over. -/
def scan_array (uri : Value) : Elems → List String → Bool × List String
  | .nil, pp => (false, pp)
  | .cons v rest, pp =>
    match v with
    | Value.vObj fields =>
      match scan_object uri fields pp with
      | (true, pp2) => (true, pp2)
      | (false, pp2) => scan_array uri rest pp2
    | _ => scan_array uri rest pp

end

/-- Test for the service root performed at line 156 of the source. -/
def isRootUri : Value → Bool
  | Value.vStr s => s == "/redfish/v1/" || s == "/redfish/v1"
  | _ => false

/-- One pass of the resource loop of build_reference_path (lines 159-171):
find the first resource, in collection order, that has an identifier
different from the target and whose scan discovers an embedded reference to
the target; return the identifier of that resource together with the discovered
partial path. -/
def findContainer (uri : Value) : List Fields → Option (Value × List String)
  | [] => none
  | r :: rest =>
    match r.get "@odata.id" with
    | none => findContainer uri rest
    | some ruri =>
      if valueEq uri ruri then findContainer uri rest
      else
        match scan_object uri r [] with
        | (true, pp) => some (ruri, pp)
        | (false, _) => findContainer uri rest

/-- Embedding of build_reference_path (lines 142-174).  The Python original
recurses with no cycle guard and need not terminate, so the embedding takes
an explicit fuel bound; none means the recursion was still running when the
bound ran out.  With any remaining fuel the function returns the
accumulated path when the target is the service root, and also when no
containing resource is found - the fallback exit of line 174. -/
def build_reference_path : Nat → Value → List Fields → List String → Option (List String)
  | 0, _, _, _ => none
  | fuel + 1, uri, response, path =>
    if isRootUri uri then some path
    else
      match findContainer uri response with
      | none => some path
      | some (ruri, partialPath) =>
        build_reference_path fuel ruri response (partialPath ++ path)

/-- One row of the per-identifier result map: the Result and Details strings
stored at lines 122-135 of the source. -/
structure UriEntry where
  result : String
  details : String
deriving DecidableEq

/-- Result structure accumulated by run_test: the per-identifier map (in
insertion order, updates overwriting in place, as for a Python dict), the
orphan list and the three counters. -/
structure Results where
  uris : List (String × UriEntry)
  orphans : List Fields
  totalPass : Nat
  totalFail : Nat
  totalWarn : Nat

/-- Python dict assignment m[k] = v: overwrite in place when the key exists,
append otherwise. -/
def setEntry (m : List (String × UriEntry)) (k : String) (v : UriEntry) :
    List (String × UriEntry) :=
  if m.any (fun p => p.1 == k) then
    m.map (fun p => if p.1 = k then (k, v) else p)
  else m ++ [(k, v)]

/-- Lookup in the per-identifier map. -/
def lookupEntry (m : List (String × UriEntry)) (k : String) : Option UriEntry :=
  (m.find? (fun p => p.1 == k)).map (fun p => p.2)

/-- Exception markers checked at line 110 of the source (there called
skip_list). -/
def skip_list : List String :=
  [ "@Redfish.Settings", "@Redfish.ActionInfo", "@Redfish.CollectionCapabilities" ]

/-- Single quote character, used by the Details format strings. -/
def sQuote : String := String.singleton (Char.ofNat 39)

/-- Details string produced at line 128 of the source for an OEM resource. -/
def oemDetails (u : String) : String :=
  "OEM resource " ++ sQuote ++ u ++ sQuote ++ " was not found in the OpenAPI specification"

/-- Details string produced at line 132 of the source for an undocumented
resource. -/
def failDetails (u : String) : String :=
  "Resource " ++ sQuote ++ u ++ sQuote ++ " was not found in the OpenAPI specification"

/-- Entry recorded for a direct template match (lines 123-124). -/
def passEntry : UriEntry := ⟨"Pass", "Pass"⟩

/-- Empty result structure initialised at lines 82-87 of the source. -/
def init_results : Results := ⟨[], [], 0, 0, 0⟩

/-- Embedding of one iteration of the classification loop of run_test
(lines 88-135).  A resource with no identifier is appended to the orphans
and counted as a failure; otherwise the identifier is matched against every
template; on a miss the reachability path decides between exclusion
(exception marker), Warning (an Oem segment) and Fail.  none models a run
aborted by a raised exception: either a non-string identifier reaching
re.match, or - in this fuel embedding - the resolver exceeding its bound. -/
def process_item (fuel : Nat) (paths : List String) (response : List Fields)
    (acc : Results) (item : Fields) : Option Results :=
  match item.get "@odata.id" with
  | none =>
    some { acc with orphans := acc.orphans ++ [item], totalFail := acc.totalFail + 1 }
  | some (Value.vStr servUri) =>
    if paths.any (fun t => matchesTemplate servUri t) then
      some { acc with uris := setEntry acc.uris servUri passEntry,
                      totalPass := acc.totalPass + 1 }
    else
      match build_reference_path fuel (Value.vStr servUri) response [] with
      | none => none
      | some refPath =>
        if ∃ m ∈ skip_list, m ∈ refPath then some acc
        else if "Oem" ∈ refPath then
          some { acc with uris := setEntry acc.uris servUri ⟨"Warning", oemDetails servUri⟩,
                          totalWarn := acc.totalWarn + 1 }
        else
          some { acc with uris := setEntry acc.uris servUri ⟨"Fail", failDetails servUri⟩,
                          totalFail := acc.totalFail + 1 }
  | some _ => none

/-- The classification loop of run_test over the remaining resources. -/
def run_test_aux (fuel : Nat) (paths : List String) (response : List Fields) :
    List Fields → Results → Option Results
  | [], acc => some acc
  | item :: rest, acc =>
    match process_item fuel paths response acc item with
    | none => none
    | some acc2 => run_test_aux fuel paths response rest acc2

/-- Embedding of the validation pass of run_test (lines 81-140): the
retrieved resource collection is classified against the path set of the
specification, every resource being both a classification subject and part of
the graph searched by the resolver. -/
def run_test (fuel : Nat) (paths : List String) (response : List Fields) :
    Option Results :=
  run_test_aux fuel paths response response init_results

/-- Outcome of classifying a single resource, determined by the resource,
the path set and the collection alone (the accumulator plays no part in the
branch taken). -/
inductive Outcome where
  | orphan : Outcome
  | pass (u : String) : Outcome
  | warn (u : String) : Outcome
  | failNoMatch (u : String) : Outcome
  | skipped (u : String) : Outcome
  | crash : Outcome
deriving DecidableEq

/-- Classification of one resource, following exactly the branch structure
of process_item. -/
def classify_item (fuel : Nat) (paths : List String) (response : List Fields)
    (item : Fields) : Outcome :=
  match item.get "@odata.id" with
  | none => .orphan
  | some (Value.vStr servUri) =>
    if paths.any (fun t => matchesTemplate servUri t) then .pass servUri
    else
      match build_reference_path fuel (Value.vStr servUri) response [] with
      | none => .crash
      | some refPath =>
        if ∃ m ∈ skip_list, m ∈ refPath then .skipped servUri
        else if "Oem" ∈ refPath then .warn servUri
        else .failNoMatch servUri
  | some _ => .crash

/-- Helper: a matched string value equality specialises valueEq. -/
theorem valueEq_vStr (a b : String) : valueEq (.vStr a) (.vStr b) = (a == b) := rfl

mutual

theorem scan_object_false_path (uri : Value) (f : Fields) (pp : List String) :
    (scan_object uri f pp).1 = false → (scan_object uri f pp).2 = pp := by
  cases f with
  | nil => intro _; simp [scan_object]
  | cons prop v rest =>
    by_cases h1 : prop = "@odata.id" ∧ valueEq v uri = true
    · cases v <;> simp [scan_object, h1.1, h1.2]
    · by_cases h2 : prop ∈ skipped_properties
      · cases v <;>
          (simp only [scan_object, if_neg h1, if_pos h2]
           exact scan_object_false_path uri rest pp)
      · cases v with
        | vObj fields =>
          simp only [scan_object, if_neg h1, if_neg h2]
          rcases h3 : scan_object uri fields (pp ++ [prop]) with ⟨b, pp2⟩
          cases b with
          | true => intro h; exact Bool.noConfusion h
          | false =>
            have hin : pp2 = pp ++ [prop] := by
              have h5 := scan_object_false_path uri fields (pp ++ [prop]) (by rw [h3])
              rwa [h3] at h5
            intro h
            rw [hin] at h ⊢
            have h4 : (scan_object uri rest ((pp ++ [prop]).dropLast)).1 = false := h
            rw [List.dropLast_concat] at h4
            show (scan_object uri rest ((pp ++ [prop]).dropLast)).2 = pp
            rw [List.dropLast_concat]
            exact scan_object_false_path uri rest pp h4
        | vArr elems =>
          simp only [scan_object, if_neg h1, if_neg h2]
          rcases h3 : scan_array uri elems (pp ++ [prop]) with ⟨b, pp2⟩
          cases b with
          | true => intro h; exact Bool.noConfusion h
          | false =>
            have hin : pp2 = pp ++ [prop] := by
              have h5 := scan_array_false_path uri elems (pp ++ [prop]) (by rw [h3])
              rwa [h3] at h5
            intro h
            rw [hin] at h ⊢
            have h4 : (scan_object uri rest ((pp ++ [prop]).dropLast)).1 = false := h
            rw [List.dropLast_concat] at h4
            show (scan_object uri rest ((pp ++ [prop]).dropLast)).2 = pp
            rw [List.dropLast_concat]
            exact scan_object_false_path uri rest pp h4
        | vStr s =>
          simp only [scan_object, if_neg h1, if_neg h2]
          exact scan_object_false_path uri rest pp
        | vOther t =>
          simp only [scan_object, if_neg h1, if_neg h2]
          exact scan_object_false_path uri rest pp

theorem scan_array_false_path (uri : Value) (e : Elems) (pp : List String) :
    (scan_array uri e pp).1 = false → (scan_array uri e pp).2 = pp := by
  cases e with
  | nil => intro _; simp [scan_array]
  | cons v rest =>
    cases v with
    | vObj fields =>
      simp only [scan_array]
      rcases h3 : scan_object uri fields pp with ⟨b, pp2⟩
      cases b with
      | true => intro h; exact Bool.noConfusion h
      | false =>
        have hin : pp2 = pp := by
          have h5 := scan_object_false_path uri fields pp (by rw [h3])
          rwa [h3] at h5
        intro h
        have h4 : (scan_array uri rest pp2).1 = false := h
        rw [hin] at h4
        show (scan_array uri rest pp2).2 = pp
        rw [hin]
        exact scan_array_false_path uri rest pp h4
    | vStr s => simp only [scan_array]; exact scan_array_false_path uri rest pp
    | vOther t => simp only [scan_array]; exact scan_array_false_path uri rest pp
    | vArr e2 => simp only [scan_array]; exact scan_array_false_path uri rest pp

end

mutual

theorem scan_object_no_skip (uri : Value) (f : Fields) (pp : List String)
    (hpp : ∀ s ∈ pp, s ∉ skipped_properties) :
    ∀ s ∈ (scan_object uri f pp).2, s ∉ skipped_properties := by
  cases f with
  | nil => simpa [scan_object] using hpp
  | cons prop v rest =>
    by_cases h1 : prop = "@odata.id" ∧ valueEq v uri = true
    · cases v <;> simpa [scan_object, h1.1, h1.2] using hpp
    · by_cases h2 : prop ∈ skipped_properties
      · cases v <;>
          (simp only [scan_object, if_neg h1, if_pos h2]
           exact scan_object_no_skip uri rest pp hpp)
      · have hpp2 : ∀ s ∈ pp ++ [prop], s ∉ skipped_properties := by
          intro s hs
          rcases List.mem_append.1 hs with hs | hs
          · exact hpp s hs
          · simp only [List.mem_singleton] at hs
            rw [hs]; exact h2
        cases v with
        | vObj fields =>
          simp only [scan_object, if_neg h1, if_neg h2]
          rcases h3 : scan_object uri fields (pp ++ [prop]) with ⟨b, pp2⟩
          cases b with
          | true =>
            have hrec := scan_object_no_skip uri fields (pp ++ [prop]) hpp2
            rw [h3] at hrec
            intro s hs; exact hrec s hs
          | false =>
            have hin : pp2 = pp ++ [prop] := by
              have h5 := scan_object_false_path uri fields (pp ++ [prop]) (by rw [h3])
              rwa [h3] at h5
            intro s hs
            have hs2 : s ∈ (scan_object uri rest pp2.dropLast).2 := hs
            rw [hin, List.dropLast_concat] at hs2
            exact scan_object_no_skip uri rest pp hpp s hs2
        | vArr elems =>
          simp only [scan_object, if_neg h1, if_neg h2]
          rcases h3 : scan_array uri elems (pp ++ [prop]) with ⟨b, pp2⟩
          cases b with
          | true =>
            have hrec := scan_array_no_skip uri elems (pp ++ [prop]) hpp2
            rw [h3] at hrec
            intro s hs; exact hrec s hs
          | false =>
            have hin : pp2 = pp ++ [prop] := by
              have h5 := scan_array_false_path uri elems (pp ++ [prop]) (by rw [h3])
              rwa [h3] at h5
            intro s hs
            have hs2 : s ∈ (scan_object uri rest pp2.dropLast).2 := hs
            rw [hin, List.dropLast_concat] at hs2
            exact scan_object_no_skip uri rest pp hpp s hs2
        | vStr s2 =>
          simp only [scan_object, if_neg h1, if_neg h2]
          exact scan_object_no_skip uri rest pp hpp
        | vOther t =>
          simp only [scan_object, if_neg h1, if_neg h2]
          exact scan_object_no_skip uri rest pp hpp

theorem scan_array_no_skip (uri : Value) (e : Elems) (pp : List String)
    (hpp : ∀ s ∈ pp, s ∉ skipped_properties) :
    ∀ s ∈ (scan_array uri e pp).2, s ∉ skipped_properties := by
  cases e with
  | nil => simpa [scan_array] using hpp
  | cons v rest =>
    cases v with
    | vObj fields =>
      simp only [scan_array]
      rcases h3 : scan_object uri fields pp with ⟨b, pp2⟩
      cases b with
      | true =>
        have hrec := scan_object_no_skip uri fields pp hpp
        rw [h3] at hrec
        intro s hs; exact hrec s hs
      | false =>
        have hin : pp2 = pp := by
          have h5 := scan_object_false_path uri fields pp (by rw [h3])
          rwa [h3] at h5
        intro s hs
        have hs2 : s ∈ (scan_array uri rest pp2).2 := hs
        rw [hin] at hs2
        exact scan_array_no_skip uri rest pp hpp s hs2
    | vStr s2 => simp only [scan_array]; exact scan_array_no_skip uri rest pp hpp
    | vOther t => simp only [scan_array]; exact scan_array_no_skip uri rest pp hpp
    | vArr e2 => simp only [scan_array]; exact scan_array_no_skip uri rest pp hpp

end

theorem findContainer_no_skip (uri : Value) :
    ∀ (rs : List Fields) (ruri : Value) (pl : List String),
      findContainer uri rs = some (ruri, pl) → ∀ s ∈ pl, s ∉ skipped_properties := by
  intro rs
  induction rs with
  | nil => intro ruri pl h; simp [findContainer] at h
  | cons r rest ih =>
    intro ruri pl h
    simp only [findContainer] at h
    cases hg : r.get "@odata.id" with
    | none => rw [hg] at h; exact ih ruri pl h
    | some rv =>
      rw [hg] at h
      dsimp only at h
      by_cases hv : valueEq uri rv = true
      · rw [if_pos hv] at h
        exact ih ruri pl h
      · rw [if_neg hv] at h
        rcases h3 : scan_object uri r [] with ⟨b, pp⟩
        rw [h3] at h
        cases b with
        | true =>
          have h4 : some (rv, pp) = some (ruri, pl) := h
          have h5 := Option.some.inj h4
          have hinj : pp = pl := congrArg Prod.snd h5
          have hall := scan_object_no_skip uri r [] (by simp)
          rw [h3] at hall
          intro s hs
          exact hall s (hinj ▸ hs)
        | false =>
          have h4 : findContainer uri rest = some (ruri, pl) := h
          exact ih ruri pl h4

theorem build_reference_path_no_skip :
    ∀ (fuel : Nat) (uri : Value) (response : List Fields) (path rp : List String),
      (∀ s ∈ path, s ∉ skipped_properties) →
      build_reference_path fuel uri response path = some rp →
      ∀ s ∈ rp, s ∉ skipped_properties := by
  intro fuel
  induction fuel with
  | zero => intro uri response path rp hp h; simp [build_reference_path] at h
  | succ n ih =>
    intro uri response path rp hp h
    simp only [build_reference_path] at h
    split at h
    · have h2 := Option.some.inj h
      rw [← h2]; exact hp
    · cases hf : findContainer uri response with
      | none =>
        rw [hf] at h
        have h2 := Option.some.inj h
        rw [← h2]; exact hp
      | some pr =>
        rw [hf] at h
        rcases pr with ⟨ruri, pl⟩
        have hpl : ∀ s ∈ pl ++ path, s ∉ skipped_properties := by
          intro s hs
          rcases List.mem_append.1 hs with hs | hs
          · exact findContainer_no_skip uri response ruri pl hf s hs
          · exact hp s hs
        exact ih ruri response (pl ++ path) rp hpl h

/-- Resource whose identifier is /a and which embeds a reference to /b. -/
def cycA : Fields :=
  .cons "@odata.id" (.vStr "/a")
    (.cons "Contains" (.vObj (.cons "@odata.id" (.vStr "/b") .nil)) .nil)

/-- Resource whose identifier is /b and which embeds a reference to /a. -/
def cycB : Fields :=
  .cons "@odata.id" (.vStr "/b")
    (.cons "Contains" (.vObj (.cons "@odata.id" (.vStr "/a") .nil)) .nil)

/-- A two-resource collection whose containment references form a cycle that
never reaches the service root. -/
def cycCollection : List Fields := [cycA, cycB]

theorem cyc_step_a :
    findContainer (Value.vStr "/a") cycCollection = some (Value.vStr "/b", ["Contains"]) := rfl

theorem cyc_step_b :
    findContainer (Value.vStr "/b") cycCollection = some (Value.vStr "/a", ["Contains"]) := rfl

theorem build_reference_path_cycle :
    ∀ (fuel : Nat) (path : List String),
      build_reference_path fuel (Value.vStr "/a") cycCollection path = none ∧
      build_reference_path fuel (Value.vStr "/b") cycCollection path = none := by
  intro fuel
  induction fuel with
  | zero => intro path; exact ⟨rfl, rfl⟩
  | succ n ih =>
    intro path
    constructor
    · show build_reference_path (n + 1) (Value.vStr "/a") cycCollection path = none
      simp only [build_reference_path]
      rw [if_neg (by decide : ¬ (isRootUri (Value.vStr "/a") = true))]
      rw [cyc_step_a]
      exact (ih (["Contains"] ++ path)).2
    · show build_reference_path (n + 1) (Value.vStr "/b") cycCollection path = none
      simp only [build_reference_path]
      rw [if_neg (by decide : ¬ (isRootUri (Value.vStr "/b") = true))]
      rw [cyc_step_b]
      exact (ih (["Contains"] ++ path)).1

theorem toksMatch_wild_seg (ts : List Tok) (s : List Char) :
    ∀ seg : List Char, seg ≠ [] → (∀ c ∈ seg, c ≠ '/') →
      toksMatch ts s = true → toksMatch (Tok.wild :: ts) (seg ++ s) = true := by
  intro seg
  induction seg with
  | nil => intro hne _ _; exact absurd rfl hne
  | cons c seg2 ih =>
    intro _ hsl h
    have hc : c ≠ '/' := hsl c (List.mem_cons_self c seg2)
    rw [List.cons_append]
    simp only [toksMatch, Bool.and_eq_true, Bool.or_eq_true, bne_iff_ne, ne_eq]
    refine ⟨hc, ?_⟩
    cases seg2 with
    | nil => exact Or.inl (by simpa using h)
    | cons d seg3 =>
      exact Or.inr (ih (by simp) (fun x hx => hsl x (List.mem_cons_of_mem c hx)) h)

theorem toksMatch_pyConforms : ∀ (s : List Char) (ts : List Tok),
    toksMatch ts s = true → PyConformsTo ts s := by
  intro s
  induction s with
  | nil =>
    intro ts h
    cases ts with
    | nil => exact PyConformsTo.nil
    | cons t ts2 => simp [toksMatch] at h
  | cons x xs ih =>
    intro ts h
    cases ts with
    | nil => simp [toksMatch] at h
    | cons t ts2 =>
      cases t with
      | lit c =>
        simp only [toksMatch, Bool.and_eq_true, beq_iff_eq] at h
        obtain ⟨hc, hm⟩ := h
        subst hc
        exact PyConformsTo.lit c (ih ts2 hm)
      | dot =>
        simp only [toksMatch, Bool.and_eq_true, bne_iff_ne, ne_eq] at h
        obtain ⟨hx, hm⟩ := h
        exact PyConformsTo.dot x hx (ih ts2 hm)
      | wild =>
        simp only [toksMatch, Bool.and_eq_true, Bool.or_eq_true, bne_iff_ne, ne_eq] at h
        obtain ⟨hx, hor⟩ := h
        cases hor with
        | inl h1 =>
          have hcf := ih ts2 h1
          have h2 : PyConformsTo (Tok.wild :: ts2) ([x] ++ xs) :=
            PyConformsTo.wild [x] (by simp)
              (by intro c hc; simp only [List.mem_singleton] at hc; rw [hc]; exact hx) hcf
          simpa using h2
        | inr h2 =>
          have hcf := ih (Tok.wild :: ts2) h2
          cases hcf with
          | wild seg hne hsl hrest =>
            rename_i s0
            have h3 : PyConformsTo (Tok.wild :: ts2) ((x :: seg) ++ s0) :=
              PyConformsTo.wild (x :: seg) (by simp)
                (by
                  intro c hc
                  rcases List.mem_cons.1 hc with hc | hc
                  · rw [hc]; exact hx
                  · exact hsl c hc) hrest
            simpa using h3

theorem pyConforms_toksMatch : ∀ (ts : List Tok) (s : List Char),
    PyConformsTo ts s → toksMatch ts s = true := by
  intro ts s h
  induction h with
  | nil => rfl
  | lit c h ih => simp [toksMatch, ih]
  | dot c hc h ih =>
    simp only [toksMatch, Bool.and_eq_true, bne_iff_ne, ne_eq]
    exact ⟨hc, ih⟩
  | wild seg hne hsl h ih => exact toksMatch_wild_seg _ _ seg hne hsl ih

theorem litMatch_wild_seg (ts : List Tok) (s : List Char) :
    ∀ seg : List Char, seg ≠ [] → (∀ c ∈ seg, c ≠ '/') →
      litMatch ts s = true → litMatch (Tok.wild :: ts) (seg ++ s) = true := by
  intro seg
  induction seg with
  | nil => intro hne _ _; exact absurd rfl hne
  | cons c seg2 ih =>
    intro _ hsl h
    have hc : c ≠ '/' := hsl c (List.mem_cons_self c seg2)
    rw [List.cons_append]
    simp only [litMatch, Bool.and_eq_true, Bool.or_eq_true, bne_iff_ne, ne_eq]
    refine ⟨hc, ?_⟩
    cases seg2 with
    | nil => exact Or.inl (by simpa using h)
    | cons d seg3 =>
      exact Or.inr (ih (by simp) (fun x hx => hsl x (List.mem_cons_of_mem c hx)) h)

theorem litMatch_conforms : ∀ (s : List Char) (ts : List Tok),
    litMatch ts s = true → ConformsTo ts s := by
  intro s
  induction s with
  | nil =>
    intro ts h
    cases ts with
    | nil => exact ConformsTo.nil
    | cons t ts2 => simp [litMatch] at h
  | cons x xs ih =>
    intro ts h
    cases ts with
    | nil => simp [litMatch] at h
    | cons t ts2 =>
      cases t with
      | lit c =>
        simp only [litMatch, Bool.and_eq_true, beq_iff_eq] at h
        obtain ⟨hc, hm⟩ := h
        subst hc
        exact ConformsTo.lit c (ih ts2 hm)
      | dot =>
        simp only [litMatch, Bool.and_eq_true, beq_iff_eq] at h
        obtain ⟨hc, hm⟩ := h
        subst hc
        exact ConformsTo.dot (ih ts2 hm)
      | wild =>
        simp only [litMatch, Bool.and_eq_true, Bool.or_eq_true, bne_iff_ne, ne_eq] at h
        obtain ⟨hx, hor⟩ := h
        cases hor with
        | inl h1 =>
          have hcf := ih ts2 h1
          have h2 : ConformsTo (Tok.wild :: ts2) ([x] ++ xs) :=
            ConformsTo.wild [x] (by simp)
              (by intro c hc; simp only [List.mem_singleton] at hc; rw [hc]; exact hx) hcf
          simpa using h2
        | inr h2 =>
          have hcf := ih (Tok.wild :: ts2) h2
          cases hcf with
          | wild seg hne hsl hrest =>
            rename_i s0
            have h3 : ConformsTo (Tok.wild :: ts2) ((x :: seg) ++ s0) :=
              ConformsTo.wild (x :: seg) (by simp)
                (by
                  intro c hc
                  rcases List.mem_cons.1 hc with hc | hc
                  · rw [hc]; exact hx
                  · exact hsl c hc) hrest
            simpa using h3

theorem conforms_litMatch : ∀ (ts : List Tok) (s : List Char),
    ConformsTo ts s → litMatch ts s = true := by
  intro ts s h
  induction h with
  | nil => rfl
  | lit c h ih => simp [litMatch, ih]
  | dot h ih => simp [litMatch, ih]
  | wild seg hne hsl h ih => exact litMatch_wild_seg _ _ seg hne hsl ih

theorem litMatch_iff_conforms (ts : List Tok) (s : List Char) :
    litMatch ts s = true ↔ ConformsTo ts s :=
  ⟨litMatch_conforms s ts, conforms_litMatch ts s⟩

theorem matchesTemplate_iff_py (servUri templ : String) :
    matchesTemplate servUri templ = true ↔ PyTemplateConforms servUri templ := by
  unfold matchesTemplate PyTemplateConforms
  simp only [Bool.or_eq_true, Bool.and_eq_true, beq_iff_eq]
  constructor
  · rintro (h | ⟨h1, h2⟩)
    · exact Or.inl (toksMatch_pyConforms _ _ h)
    · exact Or.inr ⟨h1, toksMatch_pyConforms _ _ h2⟩
  · rintro (h | ⟨h1, h2⟩)
    · exact Or.inl (pyConforms_toksMatch _ _ h)
    · exact Or.inr ⟨h1, pyConforms_toksMatch _ _ h2⟩

/-- Outcome discriminators used to count classified resources. -/
def isPassO : Outcome → Bool
  | .pass _ => true
  | _ => false

def isWarnO : Outcome → Bool
  | .warn _ => true
  | _ => false

def isFailO : Outcome → Bool
  | .failNoMatch _ => true
  | _ => false

def isOrphanO : Outcome → Bool
  | .orphan => true
  | _ => false

def isSkippedO : Outcome → Bool
  | .skipped _ => true
  | _ => false

/-- Counted outcomes are the ones that touch a counter: everything except a
skipped (excluded) resource and a crashed run. -/
def isCountedO : Outcome → Bool
  | .skipped _ => false
  | .crash => false
  | _ => true

theorem process_item_eq (fuel : Nat) (paths : List String) (response : List Fields)
    (acc : Results) (item : Fields) :
    process_item fuel paths response acc item =
      match classify_item fuel paths response item with
      | .orphan =>
        some { acc with orphans := acc.orphans ++ [item], totalFail := acc.totalFail + 1 }
      | .pass u =>
        some { acc with uris := setEntry acc.uris u passEntry, totalPass := acc.totalPass + 1 }
      | .warn u =>
        some { acc with uris := setEntry acc.uris u ⟨"Warning", oemDetails u⟩,
                        totalWarn := acc.totalWarn + 1 }
      | .failNoMatch u =>
        some { acc with uris := setEntry acc.uris u ⟨"Fail", failDetails u⟩,
                        totalFail := acc.totalFail + 1 }
      | .skipped _ => some acc
      | .crash => none := by
  unfold process_item classify_item
  cases hg : item.get "@odata.id" with
  | none => rfl
  | some v =>
    cases v with
    | vStr s =>
      by_cases hm : paths.any (fun t => matchesTemplate s t) = true
      · simp [hm]
      · simp only [Bool.not_eq_true] at hm
        simp only [hm, Bool.false_eq_true, if_false]
        cases hb : build_reference_path fuel (Value.vStr s) response [] with
        | none => rfl
        | some rp =>
          by_cases hs : ∃ m ∈ skip_list, m ∈ rp
          · simp [hs]
          · by_cases ho : "Oem" ∈ rp
            · simp [hs, ho]
            · simp [hs, ho]
    | vOther t => rfl
    | vObj f => rfl
    | vArr e => rfl

theorem run_test_aux_spec (fuel : Nat) (paths : List String) (response : List Fields) :
    ∀ (items : List Fields) (acc res : Results),
      run_test_aux fuel paths response items acc = some res →
      res.totalPass = acc.totalPass +
          items.countP (fun it => isPassO (classify_item fuel paths response it)) ∧
      res.totalWarn = acc.totalWarn +
          items.countP (fun it => isWarnO (classify_item fuel paths response it)) ∧
      res.totalFail = acc.totalFail +
          items.countP (fun it => isOrphanO (classify_item fuel paths response it)) +
          items.countP (fun it => isFailO (classify_item fuel paths response it)) ∧
      res.orphans = acc.orphans ++
          items.filter (fun it => isOrphanO (classify_item fuel paths response it)) := by
  intro items
  induction items with
  | nil =>
    intro acc res h
    have h2 : acc = res := Option.some.inj h
    subst h2
    simp
  | cons item rest ih =>
    intro acc res h
    simp only [run_test_aux] at h
    rw [process_item_eq] at h
    cases hc : classify_item fuel paths response item with
    | orphan =>
      rw [hc] at h
      have h2 : run_test_aux fuel paths response rest
          { acc with orphans := acc.orphans ++ [item],
                     totalFail := acc.totalFail + 1 } = some res := h
      obtain ⟨hp, hw, hf, ho⟩ := ih _ res h2
      refine ⟨?_, ?_, ?_, ?_⟩
      · simp only [List.countP_cons, hc, isPassO] at hp ⊢
        simp at hp ⊢; omega
      · simp only [List.countP_cons, hc, isWarnO] at hw ⊢
        simp at hw ⊢; omega
      · simp only [List.countP_cons, hc, isOrphanO, isFailO] at hf ⊢
        simp at hf ⊢; omega
      · simp only [List.filter_cons, hc, isOrphanO, if_true] at ho ⊢
        simp only [ho]
        simp [List.append_assoc]
    | pass u =>
      rw [hc] at h
      have h2 : run_test_aux fuel paths response rest
          { acc with uris := setEntry acc.uris u passEntry,
                     totalPass := acc.totalPass + 1 } = some res := h
      obtain ⟨hp, hw, hf, ho⟩ := ih _ res h2
      refine ⟨?_, ?_, ?_, ?_⟩
      · simp only [List.countP_cons, hc, isPassO] at hp ⊢
        simp at hp ⊢; omega
      · simp only [List.countP_cons, hc, isWarnO] at hw ⊢
        simp at hw ⊢; omega
      · simp only [List.countP_cons, hc, isOrphanO, isFailO] at hf ⊢
        simp at hf ⊢; omega
      · simp only [List.filter_cons, hc, isOrphanO] at ho ⊢
        simpa using ho
    | warn u =>
      rw [hc] at h
      have h2 : run_test_aux fuel paths response rest
          { acc with uris := setEntry acc.uris u ⟨"Warning", oemDetails u⟩,
                     totalWarn := acc.totalWarn + 1 } = some res := h
      obtain ⟨hp, hw, hf, ho⟩ := ih _ res h2
      refine ⟨?_, ?_, ?_, ?_⟩
      · simp only [List.countP_cons, hc, isPassO] at hp ⊢
        simp at hp ⊢; omega
      · simp only [List.countP_cons, hc, isWarnO] at hw ⊢
        simp at hw ⊢; omega
      · simp only [List.countP_cons, hc, isOrphanO, isFailO] at hf ⊢
        simp at hf ⊢; omega
      · simp only [List.filter_cons, hc, isOrphanO] at ho ⊢
        simpa using ho
    | failNoMatch u =>
      rw [hc] at h
      have h2 : run_test_aux fuel paths response rest
          { acc with uris := setEntry acc.uris u ⟨"Fail", failDetails u⟩,
                     totalFail := acc.totalFail + 1 } = some res := h
      obtain ⟨hp, hw, hf, ho⟩ := ih _ res h2
      refine ⟨?_, ?_, ?_, ?_⟩
      · simp only [List.countP_cons, hc, isPassO] at hp ⊢
        simp at hp ⊢; omega
      · simp only [List.countP_cons, hc, isWarnO] at hw ⊢
        simp at hw ⊢; omega
      · simp only [List.countP_cons, hc, isOrphanO, isFailO] at hf ⊢
        simp at hf ⊢; omega
      · simp only [List.filter_cons, hc, isOrphanO] at ho ⊢
        simpa using ho
    | skipped u =>
      rw [hc] at h
      have h2 : run_test_aux fuel paths response rest acc = some res := h
      obtain ⟨hp, hw, hf, ho⟩ := ih _ res h2
      refine ⟨?_, ?_, ?_, ?_⟩
      · simp only [List.countP_cons, hc, isPassO] at hp ⊢
        simp at hp ⊢; omega
      · simp only [List.countP_cons, hc, isWarnO] at hw ⊢
        simp at hw ⊢; omega
      · simp only [List.countP_cons, hc, isOrphanO, isFailO] at hf ⊢
        simp at hf ⊢; omega
      · simp only [List.filter_cons, hc, isOrphanO] at ho ⊢
        simpa using ho
    | crash =>
      rw [hc] at h
      exact Option.noConfusion h

@[simp] theorem isPassO_pass (u : String) : isPassO (.pass u) = true := rfl

@[simp] theorem isPassO_warn (u : String) : isPassO (.warn u) = false := rfl

@[simp] theorem isPassO_fail (u : String) : isPassO (.failNoMatch u) = false := rfl

@[simp] theorem isPassO_skipped (u : String) : isPassO (.skipped u) = false := rfl

@[simp] theorem isPassO_orphan : isPassO .orphan = false := rfl

@[simp] theorem isPassO_crash : isPassO .crash = false := rfl

@[simp] theorem isWarnO_pass (u : String) : isWarnO (.pass u) = false := rfl

@[simp] theorem isWarnO_warn (u : String) : isWarnO (.warn u) = true := rfl

@[simp] theorem isWarnO_fail (u : String) : isWarnO (.failNoMatch u) = false := rfl

@[simp] theorem isWarnO_skipped (u : String) : isWarnO (.skipped u) = false := rfl

@[simp] theorem isWarnO_orphan : isWarnO .orphan = false := rfl

@[simp] theorem isWarnO_crash : isWarnO .crash = false := rfl

@[simp] theorem isFailO_pass (u : String) : isFailO (.pass u) = false := rfl

@[simp] theorem isFailO_warn (u : String) : isFailO (.warn u) = false := rfl

@[simp] theorem isFailO_fail (u : String) : isFailO (.failNoMatch u) = true := rfl

@[simp] theorem isFailO_skipped (u : String) : isFailO (.skipped u) = false := rfl

@[simp] theorem isFailO_orphan : isFailO .orphan = false := rfl

@[simp] theorem isFailO_crash : isFailO .crash = false := rfl

@[simp] theorem isOrphanO_pass (u : String) : isOrphanO (.pass u) = false := rfl

@[simp] theorem isOrphanO_warn (u : String) : isOrphanO (.warn u) = false := rfl

@[simp] theorem isOrphanO_fail (u : String) : isOrphanO (.failNoMatch u) = false := rfl

@[simp] theorem isOrphanO_skipped (u : String) : isOrphanO (.skipped u) = false := rfl

@[simp] theorem isOrphanO_orphan : isOrphanO .orphan = true := rfl

@[simp] theorem isOrphanO_crash : isOrphanO .crash = false := rfl

@[simp] theorem isSkippedO_pass (u : String) : isSkippedO (.pass u) = false := rfl

@[simp] theorem isSkippedO_warn (u : String) : isSkippedO (.warn u) = false := rfl

@[simp] theorem isSkippedO_fail (u : String) : isSkippedO (.failNoMatch u) = false := rfl

@[simp] theorem isSkippedO_skipped (u : String) : isSkippedO (.skipped u) = true := rfl

@[simp] theorem isSkippedO_orphan : isSkippedO .orphan = false := rfl

@[simp] theorem isSkippedO_crash : isSkippedO .crash = false := rfl

@[simp] theorem isCountedO_pass (u : String) : isCountedO (.pass u) = true := rfl

@[simp] theorem isCountedO_warn (u : String) : isCountedO (.warn u) = true := rfl

@[simp] theorem isCountedO_fail (u : String) : isCountedO (.failNoMatch u) = true := rfl

@[simp] theorem isCountedO_skipped (u : String) : isCountedO (.skipped u) = false := rfl

@[simp] theorem isCountedO_orphan : isCountedO .orphan = true := rfl

@[simp] theorem isCountedO_crash : isCountedO .crash = false := rfl

theorem countP_counted_split (g : Fields → Outcome) (l : List Fields) :
    l.countP (fun it => isCountedO (g it)) =
      l.countP (fun it => isOrphanO (g it)) + l.countP (fun it => isPassO (g it)) +
      l.countP (fun it => isWarnO (g it)) + l.countP (fun it => isFailO (g it)) := by
  induction l with
  | nil => simp
  | cons a l ih =>
    cases h : g a <;> simp only [List.countP_cons, h, ih] <;> simp <;> omega

theorem classify_item_orphan_iff (fuel : Nat) (paths : List String)
    (response : List Fields) (it : Fields) :
    isOrphanO (classify_item fuel paths response it) = (it.get "@odata.id").isNone := by
  unfold classify_item
  cases hg : it.get "@odata.id" with
  | none => rfl
  | some v =>
    cases v with
    | vStr s =>
      dsimp only
      by_cases hm : paths.any (fun t => matchesTemplate s t) = true
      · rw [if_pos hm]; rfl
      · rw [if_neg hm]
        cases hb : build_reference_path fuel (Value.vStr s) response [] with
        | none => rfl
        | some rp =>
          dsimp only
          by_cases hs : ∃ m ∈ skip_list, m ∈ rp
          · rw [if_pos hs]; rfl
          · rw [if_neg hs]
            by_cases ho2 : "Oem" ∈ rp
            · rw [if_pos ho2]; rfl
            · rw [if_neg ho2]; rfl
    | vOther t => rfl
    | vObj f => rfl
    | vArr e => rfl

/-- A resource whose identifier is /x and which has no other properties. -/
def childX : Fields := .cons "@odata.id" (.vStr "/x") .nil

/-- Root resource that references /x from inside a Settings annotation. -/
def settingsRoot : Fields :=
  .cons "@odata.id" (.vStr "/redfish/v1/")
    (.cons "@Redfish.Settings" (.vObj (.cons "@odata.id" (.vStr "/x") .nil)) .nil)

/-- Collection in which /x is reachable only through an exception marker. -/
def skipExample : List Fields := [settingsRoot, childX]

/-- Root resource that references /x from inside an Oem property. -/
def oemRoot : Fields :=
  .cons "@odata.id" (.vStr "/redfish/v1/")
    (.cons "Oem" (.vObj (.cons "@odata.id" (.vStr "/x") .nil)) .nil)

/-- Collection in which /x is reachable only through an Oem property. -/
def oemExample : List Fields := [oemRoot, childX]

/-- Root resource that references /x only from inside a Links property (with
an Oem object nested below the Links, which traversal must never reach). -/
def linksRoot : Fields :=
  .cons "@odata.id" (.vStr "/redfish/v1/")
    (.cons "Links"
      (.vObj (.cons "Oem" (.vObj (.cons "@odata.id" (.vStr "/x") .nil)) .nil)) .nil)

/-- Collection in which /x is referenced only below a skip-listed property. -/
def linksExample : List Fields := [linksRoot, childX]

/-- A single root resource. -/
def rootOnly : Fields := .cons "@odata.id" (.vStr "/redfish/v1/") .nil

/-- Collection holding the same root resource twice. -/
def dupExample : List Fields := [rootOnly, rootOnly]

/-- A resource with no identifier at all. -/
def orphanItem : Fields := .cons "foo" (.vStr "bar") .nil

/-- Collection holding one orphan. -/
def orphanExample : List Fields := [orphanItem]

/-- Result of running the validator over skipExample with no templates. -/
def skipRunResult : Results :=
  ⟨[("/redfish/v1/", ⟨"Fail", failDetails "/redfish/v1/"⟩)], [], 0, 1, 0⟩

/-- Result of running the validator over linksExample with no templates. -/
def linksRunResult : Results :=
  ⟨[("/redfish/v1/", ⟨"Fail", failDetails "/redfish/v1/"⟩),
    ("/x", ⟨"Fail", failDetails "/x"⟩)], [], 0, 2, 0⟩

/-- Result of running the validator over dupExample with the root template. -/
def dupRunResult : Results := ⟨[("/redfish/v1/", passEntry)], [], 2, 0, 0⟩

/-- Result of running the validator over orphanExample. -/
def orphanRunResult : Results := ⟨[], [orphanItem], 0, 1, 0⟩

/-- C5: there exists a resource collection with an identifier cycle that
never leads back to the service root (two non-root resources referencing
each other) on which build_reference_path exhausts every fuel bound: the
underlying unbounded recursion of the source never terminates, so the
function is not total without a cycle guard. -/
theorem claim5_cycle_divergence :
    isRootUri (Value.vStr "/a") = false ∧ isRootUri (Value.vStr "/b") = false ∧
    ∀ (fuel : Nat) (path : List String),
      build_reference_path fuel (Value.vStr "/a") cycCollection path = none :=
  ⟨rfl, rfl, fun fuel path => (build_reference_path_cycle fuel path).1⟩

/-- Counterexample for C3: the unescaped template characters keep their
regular-expression meaning under re.match, so the claimed universal
equivalence between matching and literal conformance fails.  A dot in the
template matches any character: the Reset-action template accepts an
identifier with X in place of the dot, which does not conform literally.
The dollar appended at line 98 also tolerates one trailing newline: the
root identifier followed by a newline matches the root template without
conforming to it. -/
theorem claim3_matcher_cex :
    (matchesTemplate "/redfish/v1/Systems/1/Actions/ComputerSystemXReset"
        "/redfish/v1/Systems/{ComputerSystemId}/Actions/ComputerSystem.Reset" = true ∧
      ¬ TemplateConforms "/redfish/v1/Systems/1/Actions/ComputerSystemXReset"
        "/redfish/v1/Systems/{ComputerSystemId}/Actions/ComputerSystem.Reset") ∧
    (matchesTemplate ("/redfish/v1/" ++ String.singleton (Char.ofNat 10))
        "/redfish/v1/" = true ∧
      ¬ TemplateConforms ("/redfish/v1/" ++ String.singleton (Char.ofNat 10))
        "/redfish/v1/") :=
  ⟨⟨by rfl,
    fun h => absurd ((litMatch_iff_conforms _ _).mpr h) (by decide)⟩,
   ⟨by rfl,
    fun h => absurd ((litMatch_iff_conforms _ _).mpr h) (by decide)⟩⟩

/-- C3 (amended): for every template drawn from the modelled pattern
alphabet - ordinary characters, dots and well-formed placeholders - and
every identifier, the matcher decides the regular-expression reading of the
template: the identifier, or the identifier less a single trailing newline,
is the template with each placeholder standing for one or more
non-separator characters - never empty, never across a separator - with
each dot standing for one character other than a newline and every other
character standing for itself; the three cited examples behave exactly as
the claim states. -/
theorem claim3_matcher_amended :
    (∀ (servUri templ : String), modelledTemplate templ = true →
        (matchesTemplate servUri templ = true ↔ PyTemplateConforms servUri templ)) ∧
    matchesTemplate "/redfish/v1/Chassis/1" "/redfish/v1/Chassis/{ChassisId}" = true ∧
    matchesTemplate "/redfish/v1/Chassis/1/Thermal" "/redfish/v1/Chassis/{ChassisId}" = false ∧
    matchesTemplate "/redfish/v1/Chassis/" "/redfish/v1/Chassis/{ChassisId}" = false :=
  ⟨fun servUri templ _ => matchesTemplate_iff_py servUri templ,
   by rfl, by rfl, by rfl⟩

/-- Witness for the amended C3 at a concrete identifier and template of the
modelled alphabet. -/
theorem claim3_matcher_amended_witness :
    matchesTemplate "/redfish/v1/Chassis/1" "/redfish/v1/Chassis/{ChassisId}" = true ↔
      PyTemplateConforms "/redfish/v1/Chassis/1" "/redfish/v1/Chassis/{ChassisId}" :=
  claim3_matcher_amended.1 "/redfish/v1/Chassis/1" "/redfish/v1/Chassis/{ChassisId}"
    (by rfl)

/-- C10: whenever scan_object answers false, the partial_path accumulator is
returned exactly as it was on entry: every name appended while exploring a
non-matching branch has been removed again. -/
theorem claim10_scan_restores_path (uri : Value) (resource : Fields)
    (partial_path : List String)
    (h : (scan_object uri resource partial_path).1 = false) :
    (scan_object uri resource partial_path).2 = partial_path :=
  scan_object_false_path uri resource partial_path h

/-- Witness for C10 on a concrete failed scan. -/
theorem claim10_scan_restores_path_witness :
    (scan_object (Value.vStr "/nope") settingsRoot ["seed"]).2 = ["seed"] :=
  claim10_scan_restores_path (Value.vStr "/nope") settingsRoot ["seed"] (by rfl)

/-- C2: a resource whose identifier matches no template but whose
reachability path contains an exception marker is excluded outright:
processing it returns the accumulated result unchanged - no map entry, no
counter, no orphan. -/
theorem claim2_skip_frame (fuel : Nat) (paths : List String) (response : List Fields)
    (acc : Results) (item : Fields) (u : String) (rp : List String)
    (hid : item.get "@odata.id" = some (Value.vStr u))
    (hnm : paths.any (fun t => matchesTemplate u t) = false)
    (hrp : build_reference_path fuel (Value.vStr u) response [] = some rp)
    (hmark : ∃ m ∈ skip_list, m ∈ rp) :
    process_item fuel paths response acc item = some acc := by
  unfold process_item
  rw [hid]
  dsimp only
  simp only [hnm, Bool.false_eq_true, if_false]
  rw [hrp]
  dsimp only
  rw [if_pos hmark]

/-- Witness for C2 on the Settings-annotation example. -/
theorem claim2_skip_frame_witness :
    process_item 2 [] skipExample init_results childX = some init_results :=
  claim2_skip_frame 2 [] skipExample init_results childX "/x" ["@Redfish.Settings"]
    (by rfl) (by rfl) (by rfl) (by decide)

/-- Wording of the Details string asserted by the decision table of the
specification for the OEM case. -/
def claimedOemDetails (u : String) : String :=
  "OEM resource " ++ sQuote ++ u ++ sQuote ++ " was not found in the specification"

/-- Counterexample for C4: on a concrete collection the recorded verdict is
Warning, but its Details string says OpenAPI specification, not the
specification wording the claim asserts. -/
theorem claim4_oem_details_cex :
    (run_test 2 [] oemExample).bind (fun res => lookupEntry res.uris "/x") =
      some ⟨"Warning", oemDetails "/x"⟩ ∧
    oemDetails "/x" ≠ claimedOemDetails "/x" :=
  ⟨by rfl, by decide⟩

/-- C4 (amended): a resource whose identifier matches no template, whose
reachability path contains no exception marker but does contain an Oem
segment, is recorded as Warning with Details exactly OEM resource
quote-id-quote was not found in the OpenAPI specification, and TotalWarn is
incremented. -/
theorem claim4_oem_warning_amended (fuel : Nat) (paths : List String)
    (response : List Fields) (acc : Results) (item : Fields) (u : String)
    (rp : List String)
    (hid : item.get "@odata.id" = some (Value.vStr u))
    (hnm : paths.any (fun t => matchesTemplate u t) = false)
    (hrp : build_reference_path fuel (Value.vStr u) response [] = some rp)
    (hnoskip : ¬ ∃ m ∈ skip_list, m ∈ rp)
    (hoem : "Oem" ∈ rp) :
    process_item fuel paths response acc item =
      some { acc with uris := setEntry acc.uris u ⟨"Warning", oemDetails u⟩,
                      totalWarn := acc.totalWarn + 1 } := by
  unfold process_item
  rw [hid]
  dsimp only
  simp only [hnm, Bool.false_eq_true, if_false]
  rw [hrp]
  dsimp only
  rw [if_neg hnoskip, if_pos hoem]

/-- Witness for the amended C4 on the Oem example. -/
theorem claim4_oem_warning_amended_witness :
    process_item 2 [] oemExample init_results childX =
      some { init_results with
             uris := setEntry init_results.uris "/x" ⟨"Warning", oemDetails "/x"⟩,
             totalWarn := init_results.totalWarn + 1 } :=
  claim4_oem_warning_amended 2 [] oemExample init_results childX "/x" ["Oem"]
    (by rfl) (by rfl) (by rfl) (by decide) (by decide)

/-- C6: the nested scanner never traverses into a skip-listed property: a
reachability path built from a clean accumulator never mentions a
skip-listed name; and on the concrete Links scenario the target referenced
only below Links has no containing resource discovered, so the resource
falls to Fail, not Warning. -/
theorem claim6_skiplist_excluded :
    (∀ (fuel : Nat) (uri : Value) (response : List Fields) (path rp : List String),
        (∀ s ∈ path, s ∉ skipped_properties) →
        build_reference_path fuel uri response path = some rp →
        ∀ s ∈ rp, s ∉ skipped_properties) ∧
    findContainer (Value.vStr "/x") linksExample = none ∧
    run_test 2 [] linksExample = some linksRunResult :=
  ⟨build_reference_path_no_skip, by rfl, by rfl⟩

/-- Witness for C6 applied to a concrete resolved path. -/
theorem claim6_skiplist_excluded_witness :
    ∀ s ∈ (["Oem"] : List String), s ∉ skipped_properties :=
  claim6_skiplist_excluded.1 2 (Value.vStr "/x") oemExample [] ["Oem"]
    (by simp) (by rfl)

/-- C7: when no resource other than one carrying the target identifier
itself embeds a reference to a non-root target, build_reference_path
returns its accumulated path argument unchanged, and the classification of
such an unmatched resource falls through to Fail - the empty partial path
is still consulted for markers and Oem and contains neither. -/
theorem claim7_unresolved_reachability (fuel : Nat) (paths : List String)
    (response : List Fields) (acc : Results) (item : Fields) (u : String)
    (path : List String)
    (hroot : isRootUri (Value.vStr u) = false)
    (hnone : ∀ r ∈ response, (scan_object (Value.vStr u) r []).1 = true →
        r.get "@odata.id" = some (Value.vStr u))
    (hid : item.get "@odata.id" = some (Value.vStr u))
    (hnm : paths.any (fun t => matchesTemplate u t) = false) :
    build_reference_path (fuel + 1) (Value.vStr u) response path = some path ∧
    process_item (fuel + 1) paths response acc item =
      some { acc with uris := setEntry acc.uris u ⟨"Fail", failDetails u⟩,
                      totalFail := acc.totalFail + 1 } := by
  have hfc : findContainer (Value.vStr u) response = none := by
    clear hid hnm
    induction response with
    | nil => rfl
    | cons r rest ih =>
      simp only [findContainer]
      cases hg : r.get "@odata.id" with
      | none =>
        exact ih (fun r2 hr2 => hnone r2 (List.mem_cons_of_mem r hr2))
      | some rv =>
        dsimp only
        by_cases hv : valueEq (Value.vStr u) rv = true
        · rw [if_pos hv]
          exact ih (fun r2 hr2 => hnone r2 (List.mem_cons_of_mem r hr2))
        · rw [if_neg hv]
          rcases hsc : scan_object (Value.vStr u) r [] with ⟨b, pp⟩
          cases b with
          | true =>
            exfalso
            have heq := hnone r (List.mem_cons_self r rest) (by rw [hsc])
            rw [hg] at heq
            have hrv : rv = Value.vStr u := Option.some.inj heq
            rw [hrv, valueEq_vStr] at hv
            simp at hv
          | false =>
            exact ih (fun r2 hr2 => hnone r2 (List.mem_cons_of_mem r hr2))
  have hgen : ∀ p : List String,
      build_reference_path (fuel + 1) (Value.vStr u) response p = some p := by
    intro p
    simp only [build_reference_path]
    rw [hroot]
    simp only [Bool.false_eq_true, if_false]
    rw [hfc]
  refine ⟨hgen path, ?_⟩
  unfold process_item
  rw [hid]
  dsimp only
  simp only [hnm, Bool.false_eq_true, if_false]
  rw [hgen []]
  dsimp only
  rw [if_neg (by simp : ¬ ∃ m ∈ skip_list, m ∈ ([] : List String))]
  rw [if_neg (by simp : ¬ ("Oem" : String) ∈ ([] : List String))]

/-- Witness for C7 on a one-element disconnected collection. -/
theorem claim7_unresolved_reachability_witness :
    build_reference_path 1 (Value.vStr "/x") [childX] ["seed"] = some ["seed"] ∧
    process_item 1 [] [childX] init_results childX =
      some { init_results with
             uris := setEntry init_results.uris "/x" ⟨"Fail", failDetails "/x"⟩,
             totalFail := init_results.totalFail + 1 } :=
  claim7_unresolved_reachability 0 [] [childX] init_results childX "/x" ["seed"]
    (by rfl)
    (by
      intro r hr _
      simp only [List.mem_singleton] at hr
      rw [hr]
      rfl)
    (by rfl) (by rfl)

/-- Counterexample for C1: on a collection where one resource is excluded by
an exception marker, the three counters sum to one while two resources
carry an identifier and no orphan exists, so the claimed invariant fails. -/
theorem claim1_totals_cex :
    ¬ ∀ (fuel : Nat) (paths : List String) (response : List Fields) (res : Results),
        run_test fuel paths response = some res →
        res.totalPass + res.totalFail + res.totalWarn =
          response.countP (fun it => (it.get "@odata.id").isSome) + res.orphans.length := by
  intro hall
  have h := hall 2 [] skipExample skipRunResult (by rfl)
  have h2 : skipRunResult.totalPass + skipRunResult.totalFail + skipRunResult.totalWarn
      = 1 := by rfl
  have h3 : skipExample.countP (fun it => (it.get "@odata.id").isSome) +
      skipRunResult.orphans.length = 2 := by rfl
  rw [h2, h3] at h
  exact absurd h (by decide)

/-- C1 (amended): after a completed run the three counters sum to the number
of classified resources - those not excluded by an exception marker,
orphans included; the orphans are exactly the resources without an
identifier, in encounter order, and every orphan contributes to TotalFail. -/
theorem claim1_totals_amended (fuel : Nat) (paths : List String)
    (response : List Fields) (res : Results)
    (h : run_test fuel paths response = some res) :
    res.totalPass + res.totalFail + res.totalWarn =
      response.countP (fun it => isCountedO (classify_item fuel paths response it)) ∧
    res.orphans = response.filter
      (fun it => isOrphanO (classify_item fuel paths response it)) ∧
    res.totalFail = res.orphans.length +
      response.countP (fun it => isFailO (classify_item fuel paths response it)) := by
  obtain ⟨hp, hw, hf, ho⟩ := run_test_aux_spec fuel paths response response init_results res h
  simp only [init_results, Nat.zero_add, List.nil_append] at hp hw hf ho
  refine ⟨?_, ho, ?_⟩
  · rw [hp, hw, hf, countP_counted_split (classify_item fuel paths response) response]
    omega
  · rw [hf, ho, ← List.countP_eq_length_filter]

/-- Witness for the amended C1 on the Settings-annotation example. -/
theorem claim1_totals_amended_witness :
    skipRunResult.totalPass + skipRunResult.totalFail + skipRunResult.totalWarn =
      skipExample.countP (fun it => isCountedO (classify_item 2 [] skipExample it)) ∧
    skipRunResult.orphans = skipExample.filter
      (fun it => isOrphanO (classify_item 2 [] skipExample it)) ∧
    skipRunResult.totalFail = skipRunResult.orphans.length +
      skipExample.countP (fun it => isFailO (classify_item 2 [] skipExample it)) :=
  claim1_totals_amended 2 [] skipExample skipRunResult (by rfl)

/-- C8: the classification pass is deterministic - two runs over the same
collection and path set give the same totals, map and orphan list - and the
orphan sequence is the subsequence of resources without an identifier in
input-encounter order. -/
theorem claim8_deterministic (fuel : Nat) (paths : List String)
    (response : List Fields) (res1 res2 : Results)
    (h1 : run_test fuel paths response = some res1)
    (h2 : run_test fuel paths response = some res2) :
    (res1.totalPass = res2.totalPass ∧ res1.totalFail = res2.totalFail ∧
     res1.totalWarn = res2.totalWarn ∧ res1.uris = res2.uris ∧
     res1.orphans = res2.orphans) ∧
    res1.orphans = response.filter (fun it => (it.get "@odata.id").isNone) := by
  have he : res1 = res2 := by
    rw [h1] at h2
    exact Option.some.inj h2
  subst he
  refine ⟨⟨rfl, rfl, rfl, rfl, rfl⟩, ?_⟩
  obtain ⟨_, _, _, ho⟩ := run_test_aux_spec fuel paths response response init_results res1 h1
  rw [ho]
  simp only [init_results, List.nil_append]
  refine List.filter_congr ?_
  intro it _
  exact classify_item_orphan_iff fuel paths response it

/-- Witness for C8 on a one-orphan collection. -/
theorem claim8_deterministic_witness :
    (orphanRunResult.totalPass = orphanRunResult.totalPass ∧
     orphanRunResult.totalFail = orphanRunResult.totalFail ∧
     orphanRunResult.totalWarn = orphanRunResult.totalWarn ∧
     orphanRunResult.uris = orphanRunResult.uris ∧
     orphanRunResult.orphans = orphanRunResult.orphans) ∧
    orphanRunResult.orphans =
      orphanExample.filter (fun it => (it.get "@odata.id").isNone) :=
  claim8_deterministic 1 [] orphanExample orphanRunResult orphanRunResult
    (by rfl) (by rfl)

/-- C9: every occurrence of a duplicated identifier is classified and
counted independently (TotalPass counts occurrences over the whole
collection), while the result map keeps a single entry holding the verdict
of the last-processed occurrence, so the counter sum strictly exceeds the
map size plus the orphan count on a collection listing the same resource
twice. -/
theorem claim9_duplicate_identifiers :
    (∀ (fuel : Nat) (paths : List String) (response : List Fields) (res : Results),
        run_test fuel paths response = some res →
        res.totalPass = response.countP
          (fun it => isPassO (classify_item fuel paths response it))) ∧
    ∀ res : Results, run_test 1 ["/redfish/v1/"] dupExample = some res →
      res.totalPass + res.totalFail + res.totalWarn = 2 ∧
      res.uris.length = 1 ∧ res.orphans.length = 0 ∧
      res.uris.length + res.orphans.length <
        res.totalPass + res.totalFail + res.totalWarn ∧
      lookupEntry res.uris "/redfish/v1/" = some passEntry := by
  constructor
  · intro fuel paths response res h
    obtain ⟨hp, _, _, _⟩ := run_test_aux_spec fuel paths response response init_results res h
    simpa [init_results] using hp
  · intro res h
    have h3 : run_test 1 ["/redfish/v1/"] dupExample = some dupRunResult := by rfl
    rw [h3] at h
    have h4 := Option.some.inj h
    rw [← h4]
    exact ⟨by rfl, by rfl, by rfl, by decide, by rfl⟩

/-- Witness for C9 on the duplicated-root collection. -/
theorem claim9_duplicate_identifiers_witness :
    dupRunResult.totalPass + dupRunResult.totalFail + dupRunResult.totalWarn = 2 ∧
    dupRunResult.uris.length = 1 ∧ dupRunResult.orphans.length = 0 ∧
    dupRunResult.uris.length + dupRunResult.orphans.length <
      dupRunResult.totalPass + dupRunResult.totalFail + dupRunResult.totalWarn ∧
    lookupEntry dupRunResult.uris "/redfish/v1/" = some passEntry :=
  claim9_duplicate_identifiers.2 dupRunResult (by rfl)
